import Mathlib

/-!
# Element-wise sum of two numeric buffers (snippets/dotc-add.cpp)

A shallow embedding of the function `add` of the `dotc` extension module and
the properties of its specification.

* Memory is one flat address space whose cells each hold one double; an
  address counts cells, not bytes.  Buffers are regions of that memory, so two
  descriptors may denote overlapping or identical storage.
* The type of the cells is a parameter `α` with an addition: every theorem
  holds for any addition operation, the double-precision one included.
* The state carries, next to the memory, the list of the accesses made through
  the three raw pointers.  The list is ghost data: nothing reads it.
-/

namespace Dotc

/-- Descriptor of a buffer, as `request()` returns it: the fields that `add`
reads.  `ptr` is the address of the first element, `ndim` the number of
dimensions, `shape` the extent of each dimension.  A description is only ever
built with as many extents as dimensions (its constructor fails otherwise),
which is the field `shape_size`.  Extents are non-negative.  Strides are never
read by `add`: element `i` of a buffer is the cell `ptr + i`, the contiguous
layout. -/
structure buffer_info where
  ptr : Nat
  ndim : Nat
  shape : List Nat
  shape_size : shape.length = ndim

/-- Total number of elements of a buffer, the product of its extents.  An
index below it is inside the buffer. -/
def buffer_info.size (buf : buffer_info) : Nat := buf.shape.prod

/-- One access through a raw pointer: `ptr[i]` read or written. -/
inductive Access where
  | read (ptr i : Nat)
  | write (ptr i : Nat)
deriving DecidableEq

/-- Index used by an access. -/
def Access.index : Access → Nat
  | .read _ i => i
  | .write _ i => i

/-- Whether the access is a write. -/
def Access.isWrite : Access → Bool
  | .read _ _ => false
  | .write _ _ => true

/-- Machine state: the memory of doubles and the accesses made so far. -/
structure State (α : Type) where
  mem : Nat → α
  trace : List Access

/-- How a call ends: normal return, a thrown `std::runtime_error` with its
message, or an indexing outside the indexed object (undefined in C++).  Each
carries the state reached. -/
inductive Outcome (α : Type) where
  | done (st : State α)
  | runtime_error (what : String) (st : State α)
  | fault (st : State α)

/-- State in which a call ended. -/
def Outcome.state {α : Type} : Outcome α → State α
  | .done st => st
  | .runtime_error _ st => st
  | .fault st => st

/-- Read of `ptr[i]` for the pointer of `buf`; none outside the buffer. -/
def load {α : Type} (buf : buffer_info) (i : Nat) (st : State α) : Option (α × State α) :=
  if i < buf.size then
    some (st.mem (buf.ptr + i), { st with trace := st.trace ++ [Access.read buf.ptr i] })
  else none

/-- Write of `ptr[i] = v` for the pointer of `buf`; none outside the buffer. -/
def store {α : Type} (buf : buffer_info) (i : Nat) (v : α) (st : State α) : Option (State α) :=
  if i < buf.size then
    some { mem := Function.update st.mem (buf.ptr + i) v
           trace := st.trace ++ [Access.write buf.ptr i] }
  else none

/-- The loop `for (size_t i = 0; i < buf_a.shape[0]; i++) ptr_sum[i] = ptr_a[i] + ptr_b[i];`
entered with counter `i`.  `n` is the value of `buf_a.shape[0]`, which the
checks before the loop have read and which the loop does not change.  The
counter stays at most `n`, an extent, so it never wraps around. -/
def add_loop {α : Type} [Add α] (n : Nat) (buf_a buf_b buf_sum : buffer_info) (i : Nat)
    (st : State α) : Outcome α :=
  if i < n then
    match load buf_a i st with
    | none => .fault st
    | some (x, st1) =>
      match load buf_b i st1 with
      | none => .fault st1
      | some (y, st2) =>
        match store buf_sum i (x + y) st2 with
        | none => .fault st2
        | some st3 => add_loop n buf_a buf_b buf_sum (i + 1) st3
  else .done st
termination_by n - i

/-- The function `add`, applied to the buffer descriptions of its three
arguments. -/
def add {α : Type} [Add α] (buf_a buf_b buf_sum : buffer_info) (st : State α) : Outcome α :=
  if buf_a.ndim ≠ 1 ∨ buf_b.ndim ≠ 1 ∨ buf_sum.ndim ≠ 1 then
    .runtime_error "Number of dimensions must be one" st
  else
    match buf_a.shape[0]?, buf_b.shape[0]? with
    | some na, some nb =>
      if na ≠ nb then .runtime_error "Input shapes must match" st
      else
        match buf_sum.shape[0]? with
        | some ns =>
          if na ≠ ns then .runtime_error "Input shapes must match" st
          else add_loop na buf_a buf_b buf_sum 0 st
        | none => .fault st
    | _, _ => .fault st

/-- A buffer is one-dimensional with `n` elements: the two facts `add` tests,
`ndim == 1` and `shape[0] == n`. -/
def buffer_info.isVec (buf : buffer_info) (n : Nat) : Prop :=
  buf.ndim = 1 ∧ buf.shape[0]? = some n

/-- The storage of `x` and the storage of `y` share no cell. -/
def separate (x y : buffer_info) : Prop :=
  x.ptr + x.size ≤ y.ptr ∨ y.ptr + y.size ≤ x.ptr

/-- Every one of the first `n` cells of `inp` is read by the loop before the
loop writes to it: `out` does not start inside `inp` after its first cell.
Buffers that share no cell satisfy it, and so do buffers with the same start. -/
def readsFresh (inp out : buffer_info) (n : Nat) : Prop :=
  out.ptr ≤ inp.ptr ∨ inp.ptr + n ≤ out.ptr

/-- The accesses of iteration `i` of the loop, in program order. -/
def iteration (buf_a buf_b buf_sum : buffer_info) (i : Nat) : List Access :=
  [Access.read buf_a.ptr i, Access.read buf_b.ptr i, Access.write buf_sum.ptr i]

/-- Contents of a buffer in a memory, element by element. -/
def view {α : Type} (m : Nat → α) (buf : buffer_info) : List α :=
  (List.range buf.size).map (fun i => m (buf.ptr + i))

/-- A one-dimensional buffer of `n` elements starting at address `p`. -/
def vec (p n : Nat) : buffer_info := ⟨p, 1, [n], rfl⟩

/-- Memory holding the elements of `xs` from address 0 on and `d` elsewhere. -/
def memOf {α : Type} (d : α) (xs : List α) : Nat → α := fun k => xs.getD k d

/-! ## Concrete buffers and memories used as instances -/

/-- A two by two matrix stored from address 0 on. -/
def mat22 : buffer_info := ⟨0, 2, [2, 2], rfl⟩

/-- A zero-dimensional buffer (a scalar) at address `p`. -/
def scalar (p : Nat) : buffer_info := ⟨p, 0, [], rfl⟩

/-- Ten cells holding 1, 2, 3, 10, 20, 30 and four zeros; zero elsewhere.  The
cells are rationals: these values and the sums formed from them below are
small integers, which doubles represent and add exactly. -/
def mem10 : Nat → ℚ := memOf 0 [1, 2, 3, 10, 20, 30, 0, 0, 0, 0]

instance (buf : buffer_info) (n : Nat) : Decidable (buf.isVec n) := by
  unfold buffer_info.isVec; infer_instance

instance (x y : buffer_info) : Decidable (separate x y) := by
  unfold separate; infer_instance

instance (inp out : buffer_info) (n : Nat) : Decidable (readsFresh inp out n) := by
  unfold readsFresh; infer_instance

/-! ## Lemmas on descriptors -/

theorem isVec_shape {buf : buffer_info} {n : Nat} (h : buf.isVec n) : buf.shape = [n] := by
  obtain ⟨h1, h2⟩ := h
  have hl := buf.shape_size
  rw [h1] at hl
  match hs : buf.shape, hl, h2 with
  | [x], _, h2 =>
    simp at h2
    rw [h2]

theorem isVec_size {buf : buffer_info} {n : Nat} (h : buf.isVec n) : buf.size = n := by
  simp [buffer_info.size, isVec_shape h]

theorem shape_zero_of_ndim {buf : buffer_info} (h : buf.ndim = 1) :
    ∃ n, buf.shape[0]? = some n := by
  have hl := buf.shape_size
  rw [h] at hl
  match hs : buf.shape, hl with
  | [x], _ => exact ⟨x, by simp⟩

/-! ## Lemmas on the loop -/

theorem add_loop_exit {α : Type} [Add α] (n : Nat) (a b s : buffer_info) (i : Nat)
    (st : State α) (hi : ¬ i < n) : add_loop n a b s i st = .done st := by
  rw [add_loop]
  simp [hi]

theorem add_loop_step {α : Type} [Add α] (n : Nat) (a b s : buffer_info) (i : Nat)
    (st : State α) (hi : i < n) (ha : i < a.size) (hb : i < b.size) (hs : i < s.size) :
    add_loop n a b s i st = add_loop n a b s (i + 1)
      { mem := Function.update st.mem (s.ptr + i) (st.mem (a.ptr + i) + st.mem (b.ptr + i))
        trace := st.trace ++ iteration a b s i } := by
  rw [add_loop]
  simp [hi, load, store, ha, hb, hs, iteration]

/-- A run of the loop whose indices stay inside the three buffers returns
normally; its accesses, the cells it leaves alone and the values it writes. -/
theorem add_loop_run {α : Type} [Add α] (n : Nat) (a b s : buffer_info)
    (hA : n ≤ a.size) (hB : n ≤ b.size) (hS : n ≤ s.size) :
    ∀ (k i : Nat) (st : State α), i + k = n →
      ∃ st', add_loop n a b s i st = .done st' ∧
        st'.trace = st.trace ++ (List.range' i k).flatMap (iteration a b s) ∧
        (∀ addr, (∀ j, i ≤ j → j < n → addr ≠ s.ptr + j) → st'.mem addr = st.mem addr) ∧
        (readsFresh a s n → readsFresh b s n →
          ∀ j, i ≤ j → j < n → st'.mem (s.ptr + j) = st.mem (a.ptr + j) + st.mem (b.ptr + j)) := by
  intro k
  induction k with
  | zero =>
    intro i st h
    refine ⟨st, add_loop_exit n a b s i st (by omega), by simp, fun _ _ => rfl, ?_⟩
    intro _ _ j h1 h2
    omega
  | succ k ih =>
    intro i st h
    have hi : i < n := by omega
    obtain ⟨st', hrun, htr, hframe, hval⟩ := ih (i + 1)
      { mem := Function.update st.mem (s.ptr + i) (st.mem (a.ptr + i) + st.mem (b.ptr + i))
        trace := st.trace ++ iteration a b s i } (by omega)
    refine ⟨st', ?_, ?_, ?_, ?_⟩
    · rw [add_loop_step n a b s i st hi (by omega) (by omega) (by omega)]
      exact hrun
    · rw [htr]
      simp [List.range'_succ, List.append_assoc]
    · intro addr hne
      rw [hframe addr (fun j h1 h2 => hne j (by omega) h2)]
      simp only
      exact Function.update_noteq (hne i (le_refl i) hi) _ _
    · intro fa fb j h1 h2
      by_cases hj : j = i
      · subst hj
        rw [hframe (s.ptr + j) (fun j2 h3 _ => by omega)]
        simp
      · rw [hval fa fb j (by omega) h2]
        simp only
        have e1 : a.ptr + j ≠ s.ptr + i := by
          unfold readsFresh at fa
          omega
        have e2 : b.ptr + j ≠ s.ptr + i := by
          unfold readsFresh at fb
          omega
        rw [Function.update_noteq e1, Function.update_noteq e2]

/-- Whatever way the loop ends, it has changed no cell outside the storage of
the output buffer, and each of its writes is a write of an element of that
buffer. -/
theorem add_loop_frame {α : Type} [Add α] (n : Nat) (a b s : buffer_info) :
    ∀ (k i : Nat) (st : State α), n - i = k →
      (∀ addr, ¬ (s.ptr ≤ addr ∧ addr < s.ptr + s.size) →
        (add_loop n a b s i st).state.mem addr = st.mem addr) ∧
      ∃ t, (add_loop n a b s i st).state.trace = st.trace ++ t ∧
        ∀ e ∈ t, e.isWrite = true → ∃ j, e = Access.write s.ptr j ∧ j < s.size := by
  intro k
  induction k with
  | zero =>
    intro i st h
    rw [add_loop_exit n a b s i st (by omega)]
    exact ⟨fun _ _ => rfl, [], by simp [Outcome.state], by simp⟩
  | succ k ih =>
    intro i st h
    have hi : i < n := by omega
    by_cases ha : i < a.size
    · by_cases hb : i < b.size
      · by_cases hs : i < s.size
        · rw [add_loop_step n a b s i st hi ha hb hs]
          obtain ⟨hframe, t, htr, hw⟩ := ih (i + 1)
            { mem := Function.update st.mem (s.ptr + i) (st.mem (a.ptr + i) + st.mem (b.ptr + i))
              trace := st.trace ++ iteration a b s i } (by omega)
          refine ⟨?_, iteration a b s i ++ t, ?_, ?_⟩
          · intro addr hout
            rw [hframe addr hout]
            simp only
            exact Function.update_noteq (by omega) _ _
          · rw [htr]
            simp [List.append_assoc]
          · intro e he hwr
            rcases List.mem_append.mp he with h1 | h1
            · simp [iteration] at h1
              rcases h1 with h1 | h1 | h1
              · subst h1; simp [Access.isWrite] at hwr
              · subst h1; simp [Access.isWrite] at hwr
              · exact ⟨i, h1, hs⟩
            · exact hw e h1 hwr
        · rw [add_loop]
          simp only [hi, if_true, load, store, ha, hb, hs, if_false]
          refine ⟨fun _ _ => rfl, [Access.read a.ptr i, Access.read b.ptr i], ?_, ?_⟩
          · simp [Outcome.state]
          · intro e he hwr
            simp at he
            rcases he with h1 | h1 <;> subst h1 <;> simp [Access.isWrite] at hwr
      · rw [add_loop]
        simp only [hi, if_true, load, ha, hb, if_false]
        refine ⟨fun _ _ => rfl, [Access.read a.ptr i], ?_, ?_⟩
        · simp [Outcome.state]
        · intro e he hwr
          simp at he
          subst he
          simp [Access.isWrite] at hwr
    · rw [add_loop]
      simp only [hi, if_true, load, ha, if_false]
      exact ⟨fun _ _ => rfl, [], by simp [Outcome.state], by simp⟩

/-! ## Lemmas on `add` -/

theorem add_dim_error {α : Type} [Add α] (a b s : buffer_info) (st : State α)
    (h : a.ndim ≠ 1 ∨ b.ndim ≠ 1 ∨ s.ndim ≠ 1) :
    add a b s st = .runtime_error "Number of dimensions must be one" st := by
  unfold add
  rw [if_pos h]

theorem add_of_isVec {α : Type} [Add α] (a b s : buffer_info) (na nb ns : Nat) (st : State α)
    (ha : a.isVec na) (hb : b.isVec nb) (hs : s.isVec ns) :
    add a b s st =
      if na ≠ nb ∨ na ≠ ns then .runtime_error "Input shapes must match" st
      else add_loop na a b s 0 st := by
  unfold add
  have hd : ¬ (a.ndim ≠ 1 ∨ b.ndim ≠ 1 ∨ s.ndim ≠ 1) := by
    simp [ha.1, hb.1, hs.1]
  rw [if_neg hd, ha.2, hb.2, hs.2]
  by_cases h1 : na = nb
  · by_cases h2 : na = ns
    · simp [h1, h2]
    · simp [h1, h2]
  · simp [h1]

theorem add_done_of_isVec {α : Type} [Add α] (a b s : buffer_info) (n : Nat) (st : State α)
    (ha : a.isVec n) (hb : b.isVec n) (hs : s.isVec n) :
    ∃ st', add a b s st = .done st' ∧
      st'.trace = st.trace ++ (List.range n).flatMap (iteration a b s) ∧
      (∀ addr, (∀ j, j < n → addr ≠ s.ptr + j) → st'.mem addr = st.mem addr) ∧
      (readsFresh a s n → readsFresh b s n →
        ∀ j, j < n → st'.mem (s.ptr + j) = st.mem (a.ptr + j) + st.mem (b.ptr + j)) := by
  obtain ⟨st', hrun, htr, hframe, hval⟩ :=
    add_loop_run n a b s (isVec_size ha).ge (isVec_size hb).ge (isVec_size hs).ge n 0 st
      (by omega)
  refine ⟨st', ?_, ?_, ?_, ?_⟩
  · rw [add_of_isVec a b s n n n st ha hb hs]
    simpa using hrun
  · rw [htr, List.range_eq_range']
  · exact fun addr h => hframe addr (fun j _ hj => h j hj)
  · exact fun fa fb j hj => hval fa fb j (Nat.zero_le j) hj

/-- Every call of `add` ends in one of three ways: the dimension error in the
state of the call, the length error in the state of the call, or the loop run
on three one-dimensional buffers of one length. -/
theorem add_cases {α : Type} [Add α] (a b s : buffer_info) (st : State α) :
    add a b s st = .runtime_error "Number of dimensions must be one" st ∨
      add a b s st = .runtime_error "Input shapes must match" st ∨
      ∃ n, a.isVec n ∧ b.isVec n ∧ s.isVec n ∧ add a b s st = add_loop n a b s 0 st := by
  by_cases hd : a.ndim ≠ 1 ∨ b.ndim ≠ 1 ∨ s.ndim ≠ 1
  · exact Or.inl (add_dim_error a b s st hd)
  · simp only [not_or, not_not] at hd
    obtain ⟨na, hna⟩ := shape_zero_of_ndim hd.1
    obtain ⟨nb, hnb⟩ := shape_zero_of_ndim hd.2.1
    obtain ⟨ns, hns⟩ := shape_zero_of_ndim hd.2.2
    have e := add_of_isVec a b s na nb ns st ⟨hd.1, hna⟩ ⟨hd.2.1, hnb⟩ ⟨hd.2.2, hns⟩
    by_cases hl : na ≠ nb ∨ na ≠ ns
    · rw [if_pos hl] at e
      exact Or.inr (Or.inl e)
    · rw [if_neg hl] at e
      simp only [not_or, not_not] at hl
      obtain ⟨h1, h2⟩ := hl
      subst h1
      subst h2
      exact Or.inr (Or.inr ⟨na, ⟨hd.1, hna⟩, ⟨hd.2.1, hnb⟩, ⟨hd.2.2, hns⟩, e⟩)

/-- Whatever way `add` ends, it has changed no cell outside the storage of the
output buffer, and each of its writes is a write of an element of that buffer. -/
theorem add_frame_cells {α : Type} [Add α] (a b s : buffer_info) (st : State α) :
    (∀ addr, ¬ (s.ptr ≤ addr ∧ addr < s.ptr + s.size) →
        (add a b s st).state.mem addr = st.mem addr) ∧
      ∃ t, (add a b s st).state.trace = st.trace ++ t ∧
        ∀ e ∈ t, e.isWrite = true → ∃ j, e = Access.write s.ptr j ∧ j < s.size := by
  rcases add_cases a b s st with h | h | ⟨n, _, _, _, h⟩
  · rw [h]
    exact ⟨fun _ _ => rfl, [], by simp [Outcome.state], by simp⟩
  · rw [h]
    exact ⟨fun _ _ => rfl, [], by simp [Outcome.state], by simp⟩
  · rw [h]
    exact add_loop_frame n a b s n 0 st (by omega)

/-- A buffer whose storage shares no cell with the output keeps its contents. -/
theorem view_of_separate {α : Type} (m m' : Nat → α) (x s : buffer_info)
    (hsep : separate s x)
    (h : ∀ addr, ¬ (s.ptr ≤ addr ∧ addr < s.ptr + s.size) → m' addr = m addr) :
    view m' x = view m x := by
  unfold view
  apply List.map_congr_left
  intro i hi
  have hi2 : i < x.size := List.mem_range.mp hi
  apply h
  unfold separate at hsep
  omega

/-- The output holds the element-wise sums as a list. -/
theorem view_sum {α : Type} [Add α] (m m' : Nat → α) (a b s : buffer_info) (n : Nat)
    (ha : a.size = n) (hb : b.size = n) (hs : s.size = n)
    (h : ∀ j, j < n → m' (s.ptr + j) = m (a.ptr + j) + m (b.ptr + j)) :
    view m' s = List.zipWith (fun x y => x + y) (view m a) (view m b) := by
  apply List.ext_getElem
  · simp [view, ha, hb, hs]
  · intro i h1 h2
    simp [view] at h1 ⊢
    rw [hs] at h1
    exact h i h1

theorem readsFresh_of_separate {inp out : buffer_info} {n : Nat}
    (hi : inp.size = n) (ho : out.size = n) (h : separate out inp) : readsFresh inp out n := by
  unfold separate at h
  unfold readsFresh
  omega

theorem iteration_index (a b s : buffer_info) (n : Nat) :
    ∀ e ∈ (List.range n).flatMap (iteration a b s), e.index < n := by
  intro e he
  simp only [List.mem_flatMap, List.mem_range] at he
  obtain ⟨i, hi, hmem⟩ := he
  simp [iteration] at hmem
  rcases hmem with h | h | h <;> subst h <;> exact hi

theorem iteration_length (a b s : buffer_info) (n : Nat) :
    ((List.range n).flatMap (iteration a b s)).length = 3 * n := by
  induction n with
  | zero => simp
  | succ n ih =>
    rw [List.range_succ, List.flatMap_append, List.length_append, ih]
    simp [iteration]
    omega

/-! ## The claims -/

/-- C2: when one of the three buffers has a number of dimensions other than
one, `add` throws the runtime error "Number of dimensions must be one", and it
does so in the state of the call: no cell has been written and no access has
been made through a pointer. -/
theorem add_rejects_dimensions {α : Type} [Add α] (a b out : buffer_info) (st : State α)
    (h : a.ndim ≠ 1 ∨ b.ndim ≠ 1 ∨ out.ndim ≠ 1) :
    add a b out st = .runtime_error "Number of dimensions must be one" st ∧
      (add a b out st).state.mem = st.mem ∧ (add a b out st).state.trace = st.trace := by
  rw [add_dim_error a b out st h]
  exact ⟨rfl, rfl, rfl⟩

theorem add_rejects_dimensions_witness :
    add mat22 (vec 4 2) (vec 6 2) ⟨mem10, []⟩
        = .runtime_error "Number of dimensions must be one" ⟨mem10, []⟩ ∧
      add (vec 0 2) (scalar 2) (vec 4 2) ⟨mem10, []⟩
        = .runtime_error "Number of dimensions must be one" ⟨mem10, []⟩ ∧
      add (vec 0 2) (vec 2 2) mat22 ⟨mem10, []⟩
        = .runtime_error "Number of dimensions must be one" ⟨mem10, []⟩ :=
  ⟨(add_rejects_dimensions mat22 (vec 4 2) (vec 6 2) ⟨mem10, []⟩ (by decide)).1,
   (add_rejects_dimensions (vec 0 2) (scalar 2) (vec 4 2) ⟨mem10, []⟩ (by decide)).1,
   (add_rejects_dimensions (vec 0 2) (vec 2 2) mat22 ⟨mem10, []⟩ (by decide)).1⟩

/-- C3: when the three buffers are one-dimensional and their lengths are not
all equal, `add` throws the runtime error "Input shapes must match" in the
state of the call, so the output buffer is unmodified. -/
theorem add_rejects_lengths {α : Type} [Add α] (a b out : buffer_info) (la lb lo : Nat)
    (st : State α) (ha : a.isVec la) (hb : b.isVec lb) (ho : out.isVec lo)
    (h : la ≠ lb ∨ la ≠ lo) :
    add a b out st = .runtime_error "Input shapes must match" st ∧
      view (add a b out st).state.mem out = view st.mem out := by
  rw [add_of_isVec a b out la lb lo st ha hb ho, if_pos h]
  exact ⟨rfl, rfl⟩

theorem add_rejects_lengths_witness :
    add (vec 0 3) (vec 3 2) (vec 5 4) ⟨mem10, []⟩
        = .runtime_error "Input shapes must match" ⟨mem10, []⟩ ∧
      add (vec 0 3) (vec 3 3) (vec 6 2) ⟨mem10, []⟩
        = .runtime_error "Input shapes must match" ⟨mem10, []⟩ :=
  ⟨(add_rejects_lengths (vec 0 3) (vec 3 2) (vec 5 4) 3 2 4 ⟨mem10, []⟩
      (by decide) (by decide) (by decide) (by decide)).1,
   (add_rejects_lengths (vec 0 3) (vec 3 3) (vec 6 2) 3 3 2 ⟨mem10, []⟩
      (by decide) (by decide) (by decide) (by decide)).1⟩

/-- C4: a call of `add` that throws leaves the state as it was: the memory,
hence the contents of the three buffers, is the one before the call, and no
access was made. -/
theorem add_failure_atomic {α : Type} [Add α] (a b out : buffer_info) (st st' : State α)
    (msg : String) (h : add a b out st = .runtime_error msg st') :
    st' = st ∧ view st'.mem a = view st.mem a ∧ view st'.mem b = view st.mem b ∧
      view st'.mem out = view st.mem out := by
  have key : st' = st := by
    by_cases hd : a.ndim ≠ 1 ∨ b.ndim ≠ 1 ∨ out.ndim ≠ 1
    · rw [add_dim_error a b out st hd] at h
      injection h with _ h2
      exact h2.symm
    · simp only [not_or, not_not] at hd
      obtain ⟨na, hna⟩ := shape_zero_of_ndim hd.1
      obtain ⟨nb, hnb⟩ := shape_zero_of_ndim hd.2.1
      obtain ⟨ns, hns⟩ := shape_zero_of_ndim hd.2.2
      rw [add_of_isVec a b out na nb ns st ⟨hd.1, hna⟩ ⟨hd.2.1, hnb⟩ ⟨hd.2.2, hns⟩] at h
      by_cases hl : na ≠ nb ∨ na ≠ ns
      · rw [if_pos hl] at h
        injection h with _ h2
        exact h2.symm
      · rw [if_neg hl] at h
        simp only [not_or, not_not] at hl
        obtain ⟨st2, hrun, _⟩ := add_loop_run na a b out
          (isVec_size ⟨hd.1, hna⟩).ge (by rw [hl.1]; exact (isVec_size ⟨hd.2.1, hnb⟩).ge)
          (by rw [hl.2]; exact (isVec_size ⟨hd.2.2, hns⟩).ge) na 0 st (by omega)
        rw [hrun] at h
        cases h
  subst key
  exact ⟨rfl, rfl, rfl, rfl⟩

theorem add_failure_atomic_witness :
    add (vec 0 3) (vec 3 2) (vec 5 4) ⟨mem10, []⟩
        = .runtime_error "Input shapes must match" ⟨mem10, []⟩ ∧
      view mem10 (vec 0 3) = view mem10 (vec 0 3) ∧
      view mem10 (vec 3 2) = view mem10 (vec 3 2) ∧
      view mem10 (vec 5 4) = view mem10 (vec 5 4) :=
  have h : add (vec 0 3) (vec 3 2) (vec 5 4) ⟨mem10, []⟩
      = .runtime_error "Input shapes must match" ⟨mem10, []⟩ := by
    rw [add_of_isVec (vec 0 3) (vec 3 2) (vec 5 4) 3 2 4 ⟨mem10, []⟩
      (by decide) (by decide) (by decide)]
    rfl
  ⟨h, (add_failure_atomic (vec 0 3) (vec 3 2) (vec 5 4) ⟨mem10, []⟩ ⟨mem10, []⟩
    "Input shapes must match" h).2⟩

/-- C6: `add` returns normally exactly when the three buffers are
one-dimensional and their lengths are equal; it never indexes outside an
object, and a thrown error carries one of the two validation messages. -/
theorem add_done_iff {α : Type} [Add α] (a b out : buffer_info) (st : State α) :
    ((∃ st', add a b out st = .done st') ↔
        (a.ndim = 1 ∧ b.ndim = 1 ∧ out.ndim = 1 ∧
          a.shape[0]? = b.shape[0]? ∧ a.shape[0]? = out.shape[0]?)) ∧
      (∀ st', add a b out st ≠ .fault st') ∧
      (∀ msg st', add a b out st = .runtime_error msg st' →
        msg = "Number of dimensions must be one" ∨ msg = "Input shapes must match") := by
  by_cases hd : a.ndim ≠ 1 ∨ b.ndim ≠ 1 ∨ out.ndim ≠ 1
  · rw [add_dim_error a b out st hd]
    refine ⟨⟨?_, ?_⟩, ?_, ?_⟩
    · rintro ⟨st', h⟩
      cases h
    · rintro ⟨h1, h2, h3, _⟩
      rcases hd with hd | hd | hd
      · exact absurd h1 hd
      · exact absurd h2 hd
      · exact absurd h3 hd
    · intro st' h
      cases h
    · intro msg st' h
      injection h with h1 _
      exact Or.inl h1.symm
  · simp only [not_or, not_not] at hd
    obtain ⟨na, hna⟩ := shape_zero_of_ndim hd.1
    obtain ⟨nb, hnb⟩ := shape_zero_of_ndim hd.2.1
    obtain ⟨ns, hns⟩ := shape_zero_of_ndim hd.2.2
    by_cases hl : na ≠ nb ∨ na ≠ ns
    · rw [add_of_isVec a b out na nb ns st ⟨hd.1, hna⟩ ⟨hd.2.1, hnb⟩ ⟨hd.2.2, hns⟩, if_pos hl]
      refine ⟨⟨?_, ?_⟩, ?_, ?_⟩
      · rintro ⟨st', h⟩
        cases h
      · rintro ⟨_, _, _, h4, h5⟩
        rw [hna, hnb] at h4
        rw [hna, hns] at h5
        rcases hl with hl | hl
        · exact absurd (Option.some.inj h4) hl
        · exact absurd (Option.some.inj h5) hl
      · intro st' h
        cases h
      · intro msg st' h
        injection h with h1 _
        exact Or.inr h1.symm
    · simp only [not_or, not_not] at hl
      obtain ⟨h1, h2⟩ := hl
      subst h1
      subst h2
      obtain ⟨st2, hrun, _⟩ :=
        add_done_of_isVec a b out na st ⟨hd.1, hna⟩ ⟨hd.2.1, hnb⟩ ⟨hd.2.2, hns⟩
      rw [hrun]
      refine ⟨⟨fun _ => ⟨hd.1, hd.2.1, hd.2.2, by rw [hna, hnb], by rw [hna, hns]⟩,
        fun _ => ⟨st2, rfl⟩⟩, ?_, ?_⟩
      · intro st' h
        cases h
      · intro msg st' h
        cases h

theorem add_done_iff_witness :
    (∃ st', add (vec 0 3) (vec 3 3) (vec 6 3) ⟨mem10, []⟩ = .done st') ∧
      ¬ (∃ st', add (vec 0 3) (vec 3 2) (vec 6 3) ⟨mem10, []⟩ = .done st') ∧
      ¬ (∃ st', add mat22 (vec 4 3) (vec 7 3) ⟨mem10, []⟩ = .done st') :=
  ⟨(add_done_iff (vec 0 3) (vec 3 3) (vec 6 3) ⟨mem10, []⟩).1.mpr (by decide),
   fun h => absurd ((add_done_iff (vec 0 3) (vec 3 2) (vec 6 3) ⟨mem10, []⟩).1.mp h) (by decide),
   fun h => absurd ((add_done_iff mat22 (vec 4 3) (vec 7 3) ⟨mem10, []⟩).1.mp h) (by decide)⟩

/-- C7: on one-dimensional buffers of length zero `add` returns normally in
the state of the call: no access is made, no cell is written, and the output
buffer is still empty. -/
theorem add_zero_length {α : Type} [Add α] (a b out : buffer_info) (st : State α)
    (ha : a.isVec 0) (hb : b.isVec 0) (ho : out.isVec 0) :
    add a b out st = .done st ∧ view (add a b out st).state.mem out = [] := by
  have h : add a b out st = .done st := by
    rw [add_of_isVec a b out 0 0 0 st ha hb ho]
    simp [add_loop_exit]
  rw [h]
  exact ⟨rfl, by simp [view, isVec_size ho]⟩

theorem add_zero_length_witness :
    add (vec 0 0) (vec 0 0) (vec 0 0) ⟨mem10, []⟩ = .done ⟨mem10, []⟩ ∧
      view (add (vec 0 0) (vec 0 0) (vec 0 0) ⟨mem10, []⟩).state.mem (vec 0 0) = [] :=
  add_zero_length (vec 0 0) (vec 0 0) (vec 0 0) ⟨mem10, []⟩ (by decide) (by decide) (by decide)

/-- C8: the dimension test comes first.  When some buffer is not
one-dimensional and the first extents differ as well, the error thrown is the
dimension error and not the length error; and whenever `add` throws the length
error, the three buffers are one-dimensional. -/
theorem add_dimension_check_first {α : Type} [Add α] (a b out : buffer_info) (st : State α)
    (hd : a.ndim ≠ 1 ∨ b.ndim ≠ 1 ∨ out.ndim ≠ 1)
    (_hl : a.shape[0]? ≠ b.shape[0]? ∨ a.shape[0]? ≠ out.shape[0]?) :
    add a b out st = .runtime_error "Number of dimensions must be one" st ∧
      (∀ st', add a b out st ≠ .runtime_error "Input shapes must match" st') ∧
      (∀ (x y z : buffer_info) (s s' : State α),
        add x y z s = .runtime_error "Input shapes must match" s' →
          x.ndim = 1 ∧ y.ndim = 1 ∧ z.ndim = 1) := by
  refine ⟨add_dim_error a b out st hd, ?_, ?_⟩
  · intro st' h
    rw [add_dim_error a b out st hd] at h
    injection h with h1 _
    exact absurd h1 (by decide)
  · intro x y z s s' h
    by_contra hx
    have hx2 : x.ndim ≠ 1 ∨ y.ndim ≠ 1 ∨ z.ndim ≠ 1 := by
      by_contra hc
      simp only [not_or, not_not] at hc
      exact hx hc
    rw [add_dim_error x y z s hx2] at h
    injection h with h1 _
    exact absurd h1 (by decide)

theorem add_dimension_check_first_witness :
    add mat22 (vec 4 3) (vec 7 3) ⟨mem10, []⟩
      = .runtime_error "Number of dimensions must be one" ⟨mem10, []⟩ :=
  (add_dimension_check_first mat22 (vec 4 3) (vec 7 3) ⟨mem10, []⟩ (by decide) (by decide)).1

/-- C10: on three one-dimensional buffers of length `n`, `add` returns
normally, never indexing outside a buffer.  Its accesses are those of the
iterations 0, 1, ..., n - 1, one iteration for each index and in increasing
order, three accesses each; every access uses an index below `n`, which is
inside each of the three buffers; the output still has `n` elements. -/
theorem add_in_bounds {α : Type} [Add α] (a b out : buffer_info) (n : Nat) (st : State α)
    (ha : a.isVec n) (hb : b.isVec n) (ho : out.isVec n) :
    ∃ st', add a b out st = .done st' ∧
      st'.trace = st.trace ++ (List.range n).flatMap (iteration a b out) ∧
      ((List.range n).flatMap (iteration a b out)).length = 3 * n ∧
      (∀ e ∈ (List.range n).flatMap (iteration a b out),
        e.index < n ∧ e.index < a.size ∧ e.index < b.size ∧ e.index < out.size) ∧
      (view st'.mem out).length = n := by
  obtain ⟨st', hrun, htr, _, _⟩ := add_done_of_isVec a b out n st ha hb ho
  refine ⟨st', hrun, htr, iteration_length a b out n, ?_, ?_⟩
  · intro e he
    have h := iteration_index a b out n e he
    rw [isVec_size ha, isVec_size hb, isVec_size ho]
    exact ⟨h, h, h, h⟩
  · simp [view, isVec_size ho]

theorem add_in_bounds_witness :
    ∃ st', add (vec 0 3) (vec 3 3) (vec 6 3) ⟨mem10, []⟩ = .done st' ∧
      st'.trace =
        [Access.read 0 0, Access.read 3 0, Access.write 6 0,
         Access.read 0 1, Access.read 3 1, Access.write 6 1,
         Access.read 0 2, Access.read 3 2, Access.write 6 2] := by
  obtain ⟨st', h1, h2, _⟩ :=
    add_in_bounds (vec 0 3) (vec 3 3) (vec 6 3) 3 ⟨mem10, []⟩ (by decide) (by decide) (by decide)
  exact ⟨st', h1, by rw [h2]; rfl⟩

/-- C1, as stated, fails on overlapping buffers: with `a` = cells 0, 1,
`out` = cells 1, 2 and `b` = cells 2, 3 of a memory holding 1, 2, 3, 10, the
call leaves 4, 14 in `out`, while the sums of the elements that `a` and `b`
held before the call are 4, 12 and the sums of the elements they hold after it
are 15, 14. -/
theorem add_correct_counterexample :
    view (add (vec 0 2) (vec 2 2) (vec 1 2) ⟨mem10, []⟩).state.mem (vec 1 2) = [4, 14] ∧
      List.zipWith (fun x y => x + y) (view mem10 (vec 0 2)) (view mem10 (vec 2 2)) = [4, 12] ∧
      List.zipWith (fun x y => x + y)
        (view (add (vec 0 2) (vec 2 2) (vec 1 2) ⟨mem10, []⟩).state.mem (vec 0 2))
        (view (add (vec 0 2) (vec 2 2) (vec 1 2) ⟨mem10, []⟩).state.mem (vec 2 2)) = [15, 14] ∧
      ¬ (∀ i, i < 2 →
        (add (vec 0 2) (vec 2 2) (vec 1 2) ⟨mem10, []⟩).state.mem ((vec 1 2).ptr + i)
          = mem10 ((vec 0 2).ptr + i) + mem10 ((vec 2 2).ptr + i)) := by
  refine ⟨?_, ?_, ?_, ?_⟩
  · simp [add, vec, add_loop, load, store, buffer_info.size, view, mem10, memOf,
      Outcome.state, List.range, List.range.loop, Function.update]
    norm_num
  · simp [vec, buffer_info.size, view, mem10, memOf, List.range, List.range.loop]
    norm_num
  · simp [add, vec, add_loop, load, store, buffer_info.size, view, mem10, memOf,
      Outcome.state, List.range, List.range.loop, Function.update]
    norm_num
  · intro h
    have h1 := h 1 (by decide)
    simp [add, vec, add_loop, load, store, buffer_info.size, mem10, memOf,
      Outcome.state, Function.update] at h1
    norm_num at h1

/-- C1, amended: on one-dimensional buffers of one length `n` such that no
cell of `a` or of `b` is written before the loop reads it (`out` does not
start inside `a` or `b` after the first cell), `add` returns normally and
afterwards `out[i]` is the sum of the values `a[i]` and `b[i]` held before the
call, for every `i < n`. -/
theorem add_correct {α : Type} [Add α] (a b out : buffer_info) (n : Nat) (st : State α)
    (ha : a.isVec n) (hb : b.isVec n) (ho : out.isVec n)
    (fa : readsFresh a out n) (fb : readsFresh b out n) :
    ∃ st', add a b out st = .done st' ∧
      (∀ i, i < n → st'.mem (out.ptr + i) = st.mem (a.ptr + i) + st.mem (b.ptr + i)) ∧
      view st'.mem out = List.zipWith (fun x y => x + y) (view st.mem a) (view st.mem b) := by
  obtain ⟨st', hrun, _, _, hval⟩ := add_done_of_isVec a b out n st ha hb ho
  exact ⟨st', hrun, hval fa fb,
    view_sum st.mem st'.mem a b out n (isVec_size ha) (isVec_size hb) (isVec_size ho)
      (hval fa fb)⟩

theorem add_correct_witness :
    ∃ st', add (vec 0 3) (vec 3 3) (vec 6 3) ⟨mem10, []⟩ = .done st' ∧
      view mem10 (vec 0 3) = [1, 2, 3] ∧ view mem10 (vec 3 3) = [10, 20, 30] ∧
      view st'.mem (vec 6 3) = [11, 22, 33] := by
  obtain ⟨st', h1, _, h3⟩ :=
    add_correct (vec 0 3) (vec 3 3) (vec 6 3) 3 ⟨mem10, []⟩
      (by decide) (by decide) (by decide) (by decide) (by decide)
  refine ⟨st', h1, ?_, ?_, ?_⟩
  · simp [vec, buffer_info.size, view, mem10, memOf, List.range, List.range.loop]
  · simp [vec, buffer_info.size, view, mem10, memOf, List.range, List.range.loop]
  · rw [h3]
    simp [vec, buffer_info.size, view, mem10, memOf, List.range, List.range.loop]
    norm_num

/-- C5, as stated, fails when the output is an input: with `a` and `out` both
cells 0, 1, 2 of a memory holding 1, 2, 3, 10, 20, 30 and `b` cells 3, 4, 5,
the buffer `a` holds 1, 2, 3 before the call and 11, 22, 33 after it. -/
theorem add_frame_counterexample :
    view mem10 (vec 0 3) = [1, 2, 3] ∧
      view (add (vec 0 3) (vec 3 3) (vec 0 3) ⟨mem10, []⟩).state.mem (vec 0 3) = [11, 22, 33] ∧
      view (add (vec 0 3) (vec 3 3) (vec 0 3) ⟨mem10, []⟩).state.mem (vec 0 3)
        ≠ view mem10 (vec 0 3) := by
  have h1 : view mem10 (vec 0 3) = [1, 2, 3] := by
    simp [vec, buffer_info.size, view, mem10, memOf, List.range, List.range.loop]
  have h2 : view (add (vec 0 3) (vec 3 3) (vec 0 3) ⟨mem10, []⟩).state.mem (vec 0 3)
      = [11, 22, 33] := by
    simp [add, vec, add_loop, load, store, buffer_info.size, view, mem10, memOf,
      Outcome.state, List.range, List.range.loop, Function.update]
    norm_num
  refine ⟨h1, h2, ?_⟩
  rw [h1, h2]
  norm_num

/-- C5, amended: whether `add` returns or throws, every cell outside the
storage of `out` holds afterwards the value it held before, and every write is
a write of an element of `out`; so `a` holds afterwards the values it held
before whenever its storage shares no cell with that of `out`, and so does
`b`. -/
theorem add_frame {α : Type} [Add α] (a b out : buffer_info) (st : State α) :
    (∀ addr, ¬ (out.ptr ≤ addr ∧ addr < out.ptr + out.size) →
        (add a b out st).state.mem addr = st.mem addr) ∧
      (∃ t, (add a b out st).state.trace = st.trace ++ t ∧
        ∀ e ∈ t, e.isWrite = true → ∃ j, e = Access.write out.ptr j ∧ j < out.size) ∧
      (separate out a → view (add a b out st).state.mem a = view st.mem a) ∧
      (separate out b → view (add a b out st).state.mem b = view st.mem b) := by
  obtain ⟨h1, h2⟩ := add_frame_cells a b out st
  exact ⟨h1, h2, fun hs => view_of_separate _ _ a out hs h1,
    fun hs => view_of_separate _ _ b out hs h1⟩

theorem add_frame_witness :
    view (add (vec 0 3) (vec 3 3) (vec 6 3) ⟨mem10, []⟩).state.mem (vec 0 3)
        = view mem10 (vec 0 3) ∧
      view (add (vec 0 3) (vec 3 3) (vec 6 3) ⟨mem10, []⟩).state.mem (vec 3 3)
        = view mem10 (vec 3 3) ∧
      view (add (vec 0 3) (vec 3 2) (vec 6 3) ⟨mem10, []⟩).state.mem (vec 0 3)
        = view mem10 (vec 0 3) :=
  ⟨(add_frame (vec 0 3) (vec 3 3) (vec 6 3) ⟨mem10, []⟩).2.2.1 (by decide),
   (add_frame (vec 0 3) (vec 3 3) (vec 6 3) ⟨mem10, []⟩).2.2.2 (by decide),
   (add_frame (vec 0 3) (vec 3 2) (vec 6 3) ⟨mem10, []⟩).2.2.1 (by decide)⟩

/-- C9, as stated, fails when the other input overlaps the shared storage from
below: with `a` and `out` both cells 1, 2 and `b` cells 0, 1 of a memory
holding 1, 2, 3, the call leaves 3, 6 in the shared storage, while the sums of
the elements held before the call are 3, 5. -/
theorem add_in_place_counterexample :
    view (add (vec 1 2) (vec 0 2) (vec 1 2) ⟨mem10, []⟩).state.mem (vec 1 2) = [3, 6] ∧
      List.zipWith (fun x y => x + y) (view mem10 (vec 1 2)) (view mem10 (vec 0 2)) = [3, 5] ∧
      ¬ (∀ i, i < 2 →
        (add (vec 1 2) (vec 0 2) (vec 1 2) ⟨mem10, []⟩).state.mem ((vec 1 2).ptr + i)
          = mem10 ((vec 1 2).ptr + i) + mem10 ((vec 0 2).ptr + i)) := by
  refine ⟨?_, ?_, ?_⟩
  · simp [add, vec, add_loop, load, store, buffer_info.size, view, mem10, memOf,
      Outcome.state, List.range, List.range.loop, Function.update]
    norm_num
  · simp [vec, buffer_info.size, view, mem10, memOf, List.range, List.range.loop]
    norm_num
  · intro h
    have h1 := h 1 (by decide)
    simp [add, vec, add_loop, load, store, buffer_info.size, mem10, memOf,
      Outcome.state, Function.update] at h1

/-- C9, amended: when `out` is the same storage as `a` and no cell of `b` is
written before the loop reads it (or the same with `a` and `b` exchanged),
all three one-dimensional of length `n`, `add` returns normally and the shared
storage holds at every index `i < n` the sum of the values `a[i]` and `b[i]`
held before the call; these are the contents that `out` gets from a call on
buffers with the same contents whose output shares no cell with the inputs. -/
theorem add_in_place {α : Type} [Add α] (a b out : buffer_info) (n : Nat) (st : State α)
    (ha : a.isVec n) (hb : b.isVec n) (ho : out.isVec n)
    (h : (out.ptr = a.ptr ∧ readsFresh b out n) ∨ (out.ptr = b.ptr ∧ readsFresh a out n)) :
    ∃ st', add a b out st = .done st' ∧
      (∀ i, i < n → st'.mem (out.ptr + i) = st.mem (a.ptr + i) + st.mem (b.ptr + i)) ∧
      ∀ (a2 b2 out2 : buffer_info) (st2 : State α),
        a2.isVec n → b2.isVec n → out2.isVec n → separate out2 a2 → separate out2 b2 →
        view st2.mem a2 = view st.mem a → view st2.mem b2 = view st.mem b →
        view (add a2 b2 out2 st2).state.mem out2 = view st'.mem out := by
  have fa : readsFresh a out n := by
    rcases h with ⟨h1, _⟩ | ⟨_, h2⟩
    · exact Or.inl (le_of_eq h1)
    · exact h2
  have fb : readsFresh b out n := by
    rcases h with ⟨_, h2⟩ | ⟨h1, _⟩
    · exact h2
    · exact Or.inl (le_of_eq h1)
  obtain ⟨st', hrun, _, _, hval⟩ := add_done_of_isVec a b out n st ha hb ho
  refine ⟨st', hrun, hval fa fb, ?_⟩
  intro a2 b2 out2 st2 ha2 hb2 ho2 sa sb va vb
  obtain ⟨st2', hrun2, _, _, hval2⟩ := add_done_of_isVec a2 b2 out2 n st2 ha2 hb2 ho2
  rw [hrun2]
  simp only [Outcome.state]
  rw [view_sum st2.mem st2'.mem a2 b2 out2 n (isVec_size ha2) (isVec_size hb2) (isVec_size ho2)
      (hval2 (readsFresh_of_separate (isVec_size ha2) (isVec_size ho2) sa)
        (readsFresh_of_separate (isVec_size hb2) (isVec_size ho2) sb)),
    view_sum st.mem st'.mem a b out n (isVec_size ha) (isVec_size hb) (isVec_size ho)
      (hval fa fb), va, vb]

theorem add_in_place_witness :
    ∃ st', add (vec 0 3) (vec 3 3) (vec 0 3) ⟨mem10, []⟩ = .done st' ∧
      view st'.mem (vec 0 3) = [11, 22, 33] ∧
      view (add (vec 0 3) (vec 3 3) (vec 6 3) ⟨mem10, []⟩).state.mem (vec 6 3)
        = view st'.mem (vec 0 3) := by
  obtain ⟨st', h1, h2, h3⟩ :=
    add_in_place (vec 0 3) (vec 3 3) (vec 0 3) 3 ⟨mem10, []⟩
      (by decide) (by decide) (by decide) (by decide)
  refine ⟨st', h1, ?_, ?_⟩
  · have e0 := h2 0 (by decide)
    have e1 := h2 1 (by decide)
    have e2 := h2 2 (by decide)
    simp [vec, mem10, memOf] at e0 e1 e2
    simp [vec, buffer_info.size, view, List.range, List.range.loop, e0, e1, e2]
    norm_num
  · exact h3 (vec 0 3) (vec 3 3) (vec 6 3) ⟨mem10, []⟩ (by decide) (by decide) (by decide)
      (by decide) (by decide) rfl rfl

end Dotc
